import Mathlib

/-!
Shallow embedding of the orchestration logic of the two training scripts
`code/seq2seq/translate.py` (flat variant) and `code/seq3seq/translate.py`
(hierarchical variant): data loading/bucketing, training-loop checkpoint
statistics and learning-rate decay, bucket sampling, and decode control flow.

Token ids are modelled as `ℤ`, floating-point quantities (losses, learning
rates, cumulative bucket fractions) as `ℚ`; file reading is modelled by
passing the list of line pairs explicitly.
-/

namespace Translate

/-! ### Bucket tables, as written in the two scripts -/

/-- `_buckets = [(200, 48)]` in `seq2seq/translate.py` (single bucket). -/
def bucketsFlat : List (ℕ × ℕ) := [(200, 48)]

/-- `_buckets = [(1,48),(5,48),(7,48),(10,48),(15,48),(20,48)]` in
`seq3seq/translate.py`. -/
def bucketsHier : List (ℕ × ℕ) := [(1, 48), (5, 48), (7, 48), (10, 48), (15, 48), (20, 48)]

/-! ### Python list helpers -/

/-- Python's `min(candidates)` over a list of indices, `none` when the list is
empty (where CPython raises `ValueError`). -/
def pyMin (l : List ℕ) : Option ℕ := l.min?

/-- Python's `max(l)` over a nonempty list of floats (`0` as junk value on the
empty list, on which CPython raises instead; all uses below are guarded by a
nonemptiness check). -/
def pyMaxQ (l : List ℚ) : ℚ := l.foldl max (l.headD 0)

/-- Python's `l[-3:]`: the last three elements (the whole list when it is
shorter). -/
def lastThree (l : List ℚ) : List ℚ := l.drop (l.length - 3)

/-! ### Bucket choice in the training loop (both scripts)

`bucket_id = min([i for i in xrange(len(train_buckets_scale))
                  if train_buckets_scale[i] > random_number_01])` -/

/-- The training loop's bucket selection: minimum of the indices `i` with
`train_buckets_scale[i] > random_number_01`; `none` models the `ValueError`
raised by `min` on an empty candidate list. -/
def selectTrainBucket (train_buckets_scale : List ℚ) (random_number_01 : ℚ) : Option ℕ :=
  pyMin (((List.range train_buckets_scale.length).filter
    (fun i => random_number_01 < train_buckets_scale.getD i 0)))

/-! ### Decode-time bucket choice, `seq3seq/translate.py` lines 245-246

`bucket_id = min([b for b in xrange(len(_buckets)) if _buckets[b][0] > len(token_ids)])` -/

/-- Decode Driver bucket selection of the hierarchical variant: minimum of the
bucket indices whose source capacity strictly exceeds the input length; `none`
models the `ValueError` raised by `min` on an empty candidate list. -/
def selectDecodeBucket (buckets : List (ℕ × ℕ)) (tokenCount : ℕ) : Option ℕ :=
  pyMin (((List.range buckets.length).filter
    (fun b => tokenCount < (buckets.getD b (0, 0)).1)))

/-! ### Integer-token line parsing

`[int(x) for x in line.split()]`: Python `str.split()` with no argument splits
on runs of whitespace and drops empty fields; `int` parses an optional sign
followed by decimal digits. Lines are modelled as lists of characters. -/

/-- Python `str.split()` with no argument: split on maximal runs of whitespace,
no empty fields. -/
def pySplit : List Char → List (List Char)
  | [] => []
  | c :: cs =>
    if c.isWhitespace then pySplit cs
    else
      match pySplit cs with
      | [] => [[c]]
      | w :: ws =>
        match cs with
        | [] => [[c]]
        | c' :: _ => if c'.isWhitespace then [c] :: w :: ws else (c :: w) :: ws

/-- Decimal digit value of a character, `none` when it is not a digit. -/
def digitVal (c : Char) : Option ℕ :=
  if c.isDigit then some (c.toNat - '0'.toNat) else none

/-- Parse an unsigned decimal numeral. -/
def parseDigits : List Char → Option ℕ
  | [] => none
  | cs => cs.foldlM (fun acc c => (digitVal c).map (fun d => 10 * acc + d)) 0

/-- Python `int(token)` on a stripped token: optional sign, then digits;
`none` models the `ValueError` on malformed tokens. -/
def parseInt : List Char → Option ℤ
  | '-' :: cs => (parseDigits cs).map (fun n => -(n : ℤ))
  | '+' :: cs => (parseDigits cs).map (fun n => (n : ℤ))
  | cs => (parseDigits cs).map (fun n => (n : ℤ))

/-- `[int(x) for x in line.split()]`; `none` models the `ValueError` raised when
any token is not an integer literal. -/
def parseTokenLine (line : List Char) : Option (List ℤ) :=
  (pySplit line).mapM parseInt

/-! ### Flat data loader, `seq2seq/translate.py` `read_data` (lines 111-134)

The per-line transformation is
`source_ids = [int(x) for x in source.split()[:truncate_in]]`,
`target_ids = [int(x) for x in target.split()[:truncate_out]]`,
`target_ids.append(data_utils.EOS_ID)`, and every pair is appended to
`data_set[0]` unconditionally (the per-bucket fitting loop is commented out). -/

/-- One line pair of the flat loader: truncate the source to `truncate_in`
ids, the target to `truncate_out` ids, and append the end-of-sequence id to the
target. -/
def readPairFlat (eos : ℤ) (truncate_in truncate_out : ℕ)
    (source target : List ℤ) : List ℤ × List ℤ :=
  (source.take truncate_in, target.take truncate_out ++ [eos])

/-- `read_data` of the flat variant over already-parsed aligned line pairs:
reads at most `max_size` pairs (all of them when `max_size = 0`, matching
`not max_size or counter < max_size`), and puts every example in the single
bucket `data_set[0]`. -/
def read_data_flat (eos : ℤ) (max_size : ℕ) (truncate_in truncate_out : ℕ)
    (lines : List (List ℤ × List ℤ)) : List (List (List ℤ × List ℤ)) :=
  [(if max_size = 0 then lines else lines.take max_size).map
      (fun st => readPairFlat eos truncate_in truncate_out st.1 st.2)]

/-! ### Hierarchical data loader, `seq3seq/translate.py` `read_data` (lines 103-131) -/

/-- Sentence encoding of the hierarchical loader (lines 117-120): prepend the
clipped sentence length, truncate the sentence to `max_sent` ids and pad it
with zeros up to `max_sent`. -/
def encodeSent (max_sent : ℕ) (sent : List ℤ) : List ℤ :=
  (min sent.length max_sent : ℕ) :: (sent.take max_sent ++ List.replicate (max_sent - sent.length) 0)

/-- The reversed-enumeration bucket search of lines 125-128: iterate the bucket
indices from the largest downwards and return the first index `i` with
`sourceLen > buckets[i][0]` and `targetLen < buckets[i][1]`; `none` when no
bucket matches (the article is dropped). -/
def findLargestIdx (p : ℕ → Bool) : ℕ → Option ℕ
  | 0 => none
  | n + 1 => if p n then some n else findLargestIdx p n

/-- Bucket assignment of one article in the hierarchical loader: the article
(a list of encoded sentences) goes to the largest-index bucket whose source
capacity its sentence count strictly exceeds and whose target capacity strictly
exceeds its target length. -/
def chooseBucketHier (buckets : List (ℕ × ℕ)) (sourceLen targetLen : ℕ) : Option ℕ :=
  findLargestIdx
    (fun i => (buckets.getD i (0, 0)).1 < sourceLen && targetLen < (buckets.getD i (0, 0)).2)
    buckets.length

/-- Place one article of the hierarchical loader: when a bucket matches, append
the source trimmed to the bucket's source capacity together with the target;
otherwise leave the data set unchanged (the article is silently dropped). -/
def placeArticleHier (buckets : List (ℕ × ℕ))
    (data_set : List (List (List (List ℤ) × List ℤ)))
    (source_ids : List (List ℤ)) (target_ids : List ℤ) :
    List (List (List (List ℤ) × List ℤ)) :=
  match chooseBucketHier buckets source_ids.length target_ids.length with
  | some i =>
      data_set.set i (data_set.getD i [] ++ [(source_ids.take (buckets.getD i (0, 0)).1, target_ids)])
  | none => data_set

/-- `read_data` of the hierarchical variant over already-split articles: each
line pair is (list of sentences, target ids); the loader encodes each sentence,
appends the end-of-sequence id to the target, and places the article by
`placeArticleHier`. -/
def read_data_hier (eos : ℤ) (max_sent : ℕ) (max_size : ℕ)
    (lines : List (List (List ℤ) × List ℤ)) : List (List (List (List ℤ) × List ℤ)) :=
  (if max_size = 0 then lines else lines.take max_size).foldl
    (fun ds st =>
      placeArticleHier bucketsHier ds (st.1.map (encodeSent max_sent)) (st.2 ++ [eos]))
    (bucketsHier.map (fun _ => []))

/-! ### Checkpoint-boundary statistics of the training loop

`seq2seq/translate.py` lines 242-262 and `seq3seq/translate.py` lines 205-218:
at a checkpoint boundary the loop computes
`perplexity = math.exp(loss) if loss < 300 else float('inf')`, then
`if len(previous_losses) > 2 and loss > max(previous_losses[-3:]):
   sess.run(model.learning_rate_decay_op)`, and finally
`previous_losses.append(loss)`. -/

/-- The mutable per-checkpoint training statistics: the model's current
learning rate and the list of recorded per-checkpoint average losses. -/
structure TrainStats where
  learning_rate : ℚ
  previous_losses : List ℚ
deriving DecidableEq

/-- The decay guard
`len(previous_losses) > 2 and loss > max(previous_losses[-3:])`. -/
def decayTriggered (previous_losses : List ℚ) (loss : ℚ) : Bool :=
  decide (2 < previous_losses.length) && decide (pyMaxQ (lastThree previous_losses) < loss)

/-- One checkpoint boundary acting on the training statistics: run the
learning-rate decay operation (`learning_rate *= decay_factor`) exactly when
the guard holds, then append the loss to the history. The returned flag
records whether the decay operation was executed. -/
def checkpointStep (decay_factor : ℚ) (st : TrainStats) (loss : ℚ) : TrainStats × Bool :=
  let d := decayTriggered st.previous_losses loss
  ({ learning_rate := if d then st.learning_rate * decay_factor else st.learning_rate,
     previous_losses := st.previous_losses ++ [loss] }, d)

/-- The reported perplexity value: finite or infinite. -/
inductive Perplexity
  | finite (x : ℚ)
  | infinite
deriving DecidableEq

/-- `perplexity = math.exp(loss) if loss < 300 else float('inf')`; the
exponential itself is the external library's `math.exp`, abstracted as the
argument `exp`. -/
def checkpointPerplexity (exp : ℚ → ℚ) (loss : ℚ) : Perplexity :=
  if loss < 300 then .finite (exp loss) else .infinite

/-! ### Model creation, `create_model` (seq2seq lines 148-155, seq3seq 141-148)

`ckpt = tf.train.get_checkpoint_state(FLAGS.train_dir)` yields the recorded
checkpoint state (or `None`); parameters are restored exactly when
`ckpt and tf.gfile.Exists(ckpt.model_checkpoint_path)`. -/

/-- The checkpoint state recorded in the training directory, as far as
`create_model` inspects it: the path of the model checkpoint file. -/
structure CkptState where
  model_checkpoint_path : String
deriving DecidableEq

/-- The parameter-initialisation action taken by `create_model`. -/
inductive InitAction
  | restore (path : String)
  | freshInit
deriving DecidableEq

/-- `create_model`'s restore-or-initialise decision: restore from the
checkpoint file when a checkpoint state exists and its file is present,
otherwise initialise fresh parameters; in both cases the function returns (no
abort path exists). -/
def create_model (ckpt : Option CkptState) (fileExists : String → Bool) : InitAction :=
  match ckpt with
  | some c =>
      if fileExists c.model_checkpoint_path then .restore c.model_checkpoint_path
      else .freshInit
  | none => .freshInit

/-! ### Decode-output truncation at EOS

`seq3seq/translate.py` lines 256-257 (and the per-batch analogue at
`seq2seq/translate.py` lines 335-337):
`if data_utils.EOS_ID in outputs: outputs = outputs[:outputs.index(data_utils.EOS_ID)]` -/

/-- Cut the decoded outputs at the first occurrence of the end-of-sequence id,
leaving them unchanged when it does not occur. -/
def truncateAtEOS (eos : ℤ) (outputs : List ℤ) : List ℤ :=
  if eos ∈ outputs then outputs.take (outputs.indexOf eos) else outputs

/-! ### The sampled all-positions decode path, `seq2seq/translate.py` lines 318-326

```
for _ in xrange(_buckets[bucket_id][1]):
  _, _, output_logits = model.step(...)
  generated = [tf.arg_max(np.random.multinomial(1,logit),0)
                         for batch_logits in output_logits[0]
                         for logit in batch_logit]
  decoder_inputs_generated.append(generated)
```

The inner comprehension clause iterates over the name `batch_logit`, which is
bound nowhere in `decode` (the outer clause binds `batch_logits`); evaluating
it raises `NameError` on the first outer iteration. -/

/-- A Python runtime error, as far as this path produces one. -/
inductive PyError
  | nameError (n : String)
deriving DecidableEq

/-- The names bound in `decode`'s scope at the moment the inner iterable of the
comprehension on lines 323-325 is evaluated: the function's locals assigned
before line 323, plus `batch_logits` just bound by the outer clause.
`batch_logit` is not among them. -/
def sampledDecodeScope : List String :=
  ["sess", "model", "train_set", "article_vocab_path", "title_vocab_path",
   "article_vocab", "rev_title_vocab", "bucket_id", "encoder_inputs",
   "decoder_inputs_true", "target_weights", "decoder_inputs_generated",
   "output_logits", "batch_logits"]

/-- Evaluation of the comprehension
`[... for batch_logits in output_logits[0] for logit in batch_logit]`:
for each element of `output_logits[0]` the inner iterable — the name
`batch_logit` — is looked up in the scope; an unbound name raises `NameError`.
The `.ok` branch (continuing with the accumulated rows) is unreachable because
`batch_logit` is bound nowhere in `decode`. -/
def evalGeneratedComprehension (output_logits0 : List (List ℚ)) : Except PyError (List ℤ) :=
  output_logits0.foldlM
    (fun acc _batch_logits =>
      match sampledDecodeScope.find? (fun n => n == "batch_logit") with
      | some _ => .ok acc
      | none => .error (.nameError "batch_logit"))
    []

/-- The per-position generation loop of lines 318-326 over the remaining
decode positions: at each position evaluate the comprehension and append its
result; stop with the error when evaluation raises. Returns the rows appended
so far and the error, if any. -/
def sampledDecodeLoop (logitsAt : ℕ → List (List ℚ)) :
    List ℕ → List (List ℤ) → List (List ℤ) × Option PyError
  | [], gen => (gen, none)
  | t :: ts, gen =>
    match evalGeneratedComprehension (logitsAt t) with
    | .ok g => sampledDecodeLoop logitsAt ts (gen ++ [g])
    | .error e => (gen, some e)

/-- The whole sampled all-positions decode pass for one bucket:
`for _ in xrange(_buckets[bucket_id][1])`, where `logitsAt t` is
`output_logits[0]` produced by the external `model.step` call of iteration `t`
(one row of per-vocabulary logits per batch element). -/
def sampledDecode (targetCap : ℕ) (logitsAt : ℕ → List (List ℚ)) :
    List (List ℤ) × Option PyError :=
  sampledDecodeLoop logitsAt (List.range targetCap) []

end Translate

namespace Translate

/-! ### Helper lemmas on `pyMin` -/

theorem pyMin_eq_some_iff {l : List ℕ} {a : ℕ} :
    pyMin l = some a ↔ a ∈ l ∧ ∀ b ∈ l, a ≤ b := by
  unfold pyMin
  rw [List.min?_eq_some_iff (fun a => Nat.le_refl a) (fun a b => min_choice a b)
    (fun a b c => Nat.le_min)]

theorem pyMin_eq_none_iff {l : List ℕ} : pyMin l = none ↔ l = [] := by
  unfold pyMin
  exact List.min?_eq_none_iff

/-- `min` over the indices of `range n` kept by a predicate is exactly the
least index satisfying it. -/
theorem pyMin_filter_range_eq_some_iff {n : ℕ} {p : ℕ → Bool} {i : ℕ} :
    pyMin ((List.range n).filter p) = some i ↔
      i < n ∧ p i = true ∧ ∀ j, j < n → p j = true → i ≤ j := by
  rw [pyMin_eq_some_iff]
  constructor
  · rintro ⟨hmem, hmin⟩
    rw [List.mem_filter, List.mem_range] at hmem
    refine ⟨hmem.1, hmem.2, ?_⟩
    intro j hj hp
    exact hmin j (by rw [List.mem_filter, List.mem_range]; exact ⟨hj, hp⟩)
  · rintro ⟨hlen, hp, hmin⟩
    refine ⟨by rw [List.mem_filter, List.mem_range]; exact ⟨hlen, hp⟩, ?_⟩
    intro b hb
    rw [List.mem_filter, List.mem_range] at hb
    exact hmin b hb.1 hb.2

/-- `min` over the kept indices fails (raises) exactly when no index of
`range n` satisfies the predicate. -/
theorem pyMin_filter_range_eq_none_iff {n : ℕ} {p : ℕ → Bool} :
    pyMin ((List.range n).filter p) = none ↔ ∀ j, j < n → p j = false := by
  rw [pyMin_eq_none_iff, List.filter_eq_nil_iff]
  constructor
  · intro h j hj
    have := h j (List.mem_range.2 hj)
    simpa using this
  · intro h a ha
    simp [h a (List.mem_range.1 ha)]

/-- A successful reversed-enumeration search returns an index that satisfies
the predicate and above which no index below the bound satisfies it. -/
theorem findLargestIdx_eq_some {p : ℕ → Bool} {n i : ℕ}
    (h : findLargestIdx p n = some i) :
    i < n ∧ p i = true ∧ ∀ j, i < j → j < n → p j = false := by
  induction n with
  | zero => simp [findLargestIdx] at h
  | succ m ih =>
    rw [findLargestIdx] at h
    by_cases hp : p m
    · rw [if_pos hp] at h
      obtain rfl : m = i := by simpa using h
      exact ⟨Nat.lt_succ_self m, hp, fun j hij hjn => absurd hjn (by omega)⟩
    · rw [if_neg hp] at h
      obtain ⟨him, hpi, hmax⟩ := ih h
      refine ⟨Nat.lt_succ_of_lt him, hpi, ?_⟩
      intro j hij hjn
      rcases Nat.lt_succ_iff_lt_or_eq.1 hjn with hjm | rfl
      · exact hmax j hij hjm
      · simpa using hp

/-- The reversed-enumeration search fails exactly when no index below the
bound satisfies the predicate. -/
theorem findLargestIdx_eq_none {p : ℕ → Bool} {n : ℕ} :
    findLargestIdx p n = none ↔ ∀ j, j < n → p j = false := by
  induction n with
  | zero => simp [findLargestIdx]
  | succ m ih =>
    rw [findLargestIdx]
    by_cases hp : p m
    · simp only [if_pos hp]
      constructor
      · intro h; cases h
      · intro h; simpa [hp] using h m (Nat.lt_succ_self m)
    · simp only [if_neg hp, ih]
      constructor
      · intro h j hj
        rcases Nat.lt_succ_iff_lt_or_eq.1 hj with hjm | rfl
        · exact h j hjm
        · simpa using hp
      · intro h j hj
        exact h j (Nat.lt_succ_of_lt hj)

/-- Strict upper bounds of a `foldl max` are strict upper bounds of the seed
and of every element. -/
theorem foldl_max_lt_iff (t : List ℚ) (a c : ℚ) :
    t.foldl max a < c ↔ a < c ∧ ∀ x ∈ t, x < c := by
  induction t generalizing a with
  | nil => simp
  | cons b t ih =>
    simp only [List.foldl_cons, ih, max_lt_iff, List.mem_cons]
    constructor
    · rintro ⟨⟨hac, hbc⟩, hall⟩
      exact ⟨hac, fun x hx => hx.elim (fun hxb => hxb ▸ hbc) (hall x)⟩
    · rintro ⟨hac, hall⟩
      exact ⟨⟨hac, hall b (Or.inl rfl)⟩, fun x hx => hall x (Or.inr hx)⟩

/-- The Python `max` of a nonempty list is strictly below `c` exactly when
every element is. -/
theorem pyMaxQ_lt_iff {l : List ℚ} (h : l ≠ []) {c : ℚ} :
    pyMaxQ l < c ↔ ∀ x ∈ l, x < c := by
  cases l with
  | nil => exact absurd rfl h
  | cons a t =>
    unfold pyMaxQ
    simp only [List.headD_cons, List.foldl_cons, max_self]
    rw [foldl_max_lt_iff]
    constructor
    · rintro ⟨hac, hall⟩ x hx
      rcases List.mem_cons.1 hx with hxa | hxt
      · exact hxa ▸ hac
      · exact hall x hxt
    · intro hall
      exact ⟨hall a (List.mem_cons_self a t), fun x hx => hall x (List.mem_cons_of_mem a hx)⟩

/-- `l[-3:]` has exactly three elements when the list has at least three. -/
theorem lastThree_length {l : List ℚ} (h : 3 ≤ l.length) :
    (lastThree l).length = 3 := by
  unfold lastThree
  rw [List.length_drop]
  omega

/-- `lastThree` of a nonempty-enough list is nonempty. -/
theorem lastThree_ne_nil {l : List ℚ} (h : 3 ≤ l.length) : lastThree l ≠ [] := by
  intro hnil
  have := lastThree_length h
  rw [hnil] at this
  simp at this

/-- The first index at which an element occurs is its `indexOf`. -/
theorem indexOf_eq_of_first {l : List ℤ} {a : ℤ} {k : ℕ}
    (hk : l[k]? = some a) (hfirst : ∀ j, j < k → l[j]? ≠ some a) :
    l.indexOf a = k := by
  induction l generalizing k with
  | nil => simp at hk
  | cons b t ih =>
    cases k with
    | zero =>
      simp only [List.getElem?_cons_zero, Option.some.injEq] at hk
      simp [hk, List.indexOf_cons_self]
    | succ m =>
      have hb : b ≠ a := by
        intro hba
        exact hfirst 0 (Nat.succ_pos m) (by simp [hba])
      rw [List.indexOf_cons_ne _ hb]
      have ht : t[m]? = some a := by simpa using hk
      have hf : ∀ j, j < m → t[j]? ≠ some a := by
        intro j hj
        have := hfirst (j + 1) (by omega)
        simpa using this
      rw [ih ht hf]

/-- C3: for every random draw `r ∈ [0,1)` and bucket-scale list of cumulative
population fractions ending in `1.0`, the training loop selects the smallest
bucket index whose cumulative fraction strictly exceeds `r`; in particular,
for scale `[0.3, 1.0]` and draw `0.5` it selects bucket index `1`. -/
theorem C3_train_bucket_selection (scale : List ℚ) (r : ℚ)
    (hlast : scale.getLast? = some 1) (hr : r < 1) :
    (∃ i, selectTrainBucket scale r = some i ∧ i < scale.length ∧
        r < scale.getD i 0 ∧ ∀ j, j < i → scale.getD j 0 ≤ r) ∧
      selectTrainBucket [(3 : ℚ)/10, 1] (1/2) = some 1 := by
  constructor
  · have hne : scale ≠ [] := by
      intro h; rw [h] at hlast; simp at hlast
    have hlen : 0 < scale.length := List.length_pos.2 hne
    have hlastD : scale.getD (scale.length - 1) 0 = 1 := by
      rw [List.getD_eq_getElem?_getD, ← List.getLast?_eq_getElem?, hlast]
      rfl
    obtain ⟨i, hi⟩ : ∃ i, selectTrainBucket scale r = some i := by
      cases hsel : selectTrainBucket scale r with
      | none =>
        exfalso
        have := (pyMin_filter_range_eq_none_iff).1 hsel (scale.length - 1) (by omega)
        rw [hlastD] at this
        simp [hr] at this
      | some i => exact ⟨i, rfl⟩
    obtain ⟨hilt, hip, himin⟩ := pyMin_filter_range_eq_some_iff.1 hi
    refine ⟨i, hi, hilt, by simpa using hip, ?_⟩
    intro j hj
    by_contra hgt
    push_neg at hgt
    have := himin j (by omega) (by simpa using hgt)
    omega
  · norm_num [selectTrainBucket, pyMin, List.range_succ]

/-- Scenario instance of `C3_train_bucket_selection` with all hypotheses
discharged at scale `[0.3, 1.0]`, draw `0.5`. -/
theorem C3_train_bucket_selection_witness :
    ([(3 : ℚ)/10, 1].getLast? = some 1) ∧ ((1 : ℚ)/2 < 1) ∧
      selectTrainBucket [(3 : ℚ)/10, 1] (1/2) = some 1 :=
  ⟨by norm_num [List.getLast?], by norm_num,
    (C3_train_bucket_selection [(3 : ℚ)/10, 1] (1/2)
      (by norm_num [List.getLast?]) (by norm_num)).2⟩

/-- C7: the hierarchical Decode Driver picks the smallest-index bucket whose
source capacity strictly exceeds the input's token count; the largest source
capacity of `_buckets` is `20`, and for an input of at least `20` tokens the
selection fails (the candidate list is empty and Python's `min` raises). -/
theorem C7_decode_bucket_selection (tokenCount : ℕ) :
    ((bucketsHier.map Prod.fst).max? = some 20) ∧
    (tokenCount < 20 →
      ∃ i, selectDecodeBucket bucketsHier tokenCount = some i ∧
        i < bucketsHier.length ∧
        tokenCount < (bucketsHier.getD i (0, 0)).1 ∧
        ∀ j, j < i → (bucketsHier.getD j (0, 0)).1 ≤ tokenCount) ∧
    (20 ≤ tokenCount → selectDecodeBucket bucketsHier tokenCount = none) := by
  refine ⟨by decide, ?_, ?_⟩
  · intro hlt
    obtain ⟨i, hi⟩ : ∃ i, selectDecodeBucket bucketsHier tokenCount = some i := by
      cases hsel : selectDecodeBucket bucketsHier tokenCount with
      | none =>
        exfalso
        have := (pyMin_filter_range_eq_none_iff).1 hsel 5 (by decide)
        simp [bucketsHier] at this
        omega
      | some i => exact ⟨i, rfl⟩
    obtain ⟨hilt, hip, himin⟩ := pyMin_filter_range_eq_some_iff.1 hi
    refine ⟨i, hi, hilt, by simpa using hip, ?_⟩
    intro j hj
    by_contra hgt
    push_neg at hgt
    have := himin j (by omega) (by simpa using hgt)
    omega
  · intro hge
    apply pyMin_filter_range_eq_none_iff.2
    intro j hj
    have hj6 : j < 6 := by simpa [bucketsHier] using hj
    simp only [decide_eq_false_iff_not, not_lt]
    interval_cases j <;> simp [bucketsHier] <;> omega

/-- Instance of `C7_decode_bucket_selection`: a 12-token input selects bucket
index `3` (source capacity 15), and a 20-token input selects no bucket. -/
theorem C7_decode_bucket_selection_witness :
    (∃ i, selectDecodeBucket bucketsHier 12 = some i ∧
        i < bucketsHier.length ∧ 12 < (bucketsHier.getD i (0, 0)).1 ∧
        ∀ j, j < i → (bucketsHier.getD j (0, 0)).1 ≤ 12) ∧
      selectDecodeBucket bucketsHier 20 = none :=
  ⟨(C7_decode_bucket_selection 12).2.1 (by decide),
    (C7_decode_bucket_selection 20).2.2 (by decide)⟩

/-- C5: when the decoded output sequence contains the end-of-sequence id, with
first occurrence at position `k`, the Decode Driver returns exactly the first
`k` tokens; a sequence containing no EOS is returned unchanged. -/
theorem C5_decode_truncation (eos : ℤ) (outputs : List ℤ) (k : ℕ)
    (hk : outputs[k]? = some eos) (hfirst : ∀ j, j < k → outputs[j]? ≠ some eos) :
    (truncateAtEOS eos outputs = outputs.take k ∧
        (truncateAtEOS eos outputs).length = k) ∧
      ∀ l : List ℤ, eos ∉ l → truncateAtEOS eos l = l := by
  have hmem : eos ∈ outputs := by
    obtain ⟨hlt, heq⟩ := List.getElem?_eq_some.1 hk
    exact heq ▸ List.getElem_mem hlt
  have hklt : k < outputs.length := (List.getElem?_eq_some.1 hk).1
  have hidx : outputs.indexOf eos = k := indexOf_eq_of_first hk hfirst
  refine ⟨⟨?_, ?_⟩, ?_⟩
  · rw [truncateAtEOS, if_pos hmem, hidx]
  · rw [truncateAtEOS, if_pos hmem, hidx, List.length_take]
    omega
  · intro l hl
    rw [truncateAtEOS, if_neg hl]

/-- Instance of `C5_decode_truncation`: outputs `[5, 2, 9]` with EOS id `2`
(first occurrence at position 1) are cut to `[5]`, one token. -/
theorem C5_decode_truncation_witness :
    (truncateAtEOS 2 [5, 2, 9] = [5] ∧ (truncateAtEOS 2 [5, 2, 9]).length = 1) ∧
      truncateAtEOS 2 [7, 8] = [7, 8] :=
  ⟨((C5_decode_truncation 2 [5, 2, 9] 1 (by decide)
      (by intro j hj; interval_cases j; decide)).1.imp
        (fun h => by simpa using h) (fun h => h)),
    (C5_decode_truncation 2 [5, 2, 9] 1 (by decide)
      (by intro j hj; interval_cases j; decide)).2 [7, 8] (by decide)⟩

/-- C6: at a checkpoint boundary the reported perplexity is `exp` of the
accumulated average loss when that loss is below the overflow threshold `300`,
and infinite otherwise; the computation always returns a value (no arithmetic
fault propagates). -/
theorem C6_perplexity_overflow (exp : ℚ → ℚ) (loss : ℚ) :
    (loss < 300 → checkpointPerplexity exp loss = .finite (exp loss)) ∧
      (300 ≤ loss → checkpointPerplexity exp loss = .infinite) := by
  constructor
  · intro h
    rw [checkpointPerplexity, if_pos h]
  · intro h
    rw [checkpointPerplexity, if_neg (not_lt.2 h)]

/-- Instance of `C6_perplexity_overflow` at losses `2` and `300`. -/
theorem C6_perplexity_overflow_witness :
    checkpointPerplexity (fun x => x + 1) 2 = .finite 3 ∧
      checkpointPerplexity (fun x => x + 1) 300 = .infinite :=
  ⟨by rw [(C6_perplexity_overflow (fun x => x + 1) 2).1 (by norm_num)]; norm_num,
    (C6_perplexity_overflow (fun x => x + 1) 300).2 (by norm_num)⟩

/-- C8: `create_model` restores parameters exactly when a checkpoint state
exists and its recorded file is present; otherwise it initialises fresh
parameters; in every case it takes one of the two actions (a missing
checkpoint never aborts). -/
theorem C8_checkpoint_restore (ckpt : Option CkptState) (fileExists : String → Bool) :
    (∀ p, create_model ckpt fileExists = .restore p ↔
        ckpt = some ⟨p⟩ ∧ fileExists p = true) ∧
      ((∀ c, ckpt = some c → fileExists c.model_checkpoint_path = false) →
        create_model ckpt fileExists = .freshInit) ∧
      (create_model ckpt fileExists = .freshInit ∨
        ∃ p, create_model ckpt fileExists = .restore p) := by
  refine ⟨?_, ?_, ?_⟩
  · intro p
    cases ckpt with
    | none => simp [create_model]
    | some c =>
      cases c with
      | mk path =>
        by_cases h : fileExists path
        · simp only [create_model, h, if_true, InitAction.restore.injEq,
            Option.some.injEq, CkptState.mk.injEq]
          exact ⟨fun hp => ⟨hp, hp ▸ h⟩, fun hp => hp.1⟩
        · simp only [create_model, h, Bool.false_eq_true, if_false,
            Option.some.injEq, CkptState.mk.injEq]
          constructor
          · intro hp; exact absurd hp (by simp)
          · rintro ⟨rfl, hfe⟩; exact absurd hfe (by simp [h])
  · intro h
    cases ckpt with
    | none => rfl
    | some c =>
      have := h c rfl
      rw [create_model]
      rw [this]
      rfl
  · cases ckpt with
    | none => exact Or.inl rfl
    | some c =>
      by_cases h : fileExists c.model_checkpoint_path
      · exact Or.inr ⟨c.model_checkpoint_path, by rw [create_model, if_pos h]⟩
      · exact Or.inl (by rw [create_model, if_neg (by simpa using h)])

/-- Instance of `C8_checkpoint_restore`: with a recorded checkpoint whose file
is present the model restores; with no recorded checkpoint it initialises
fresh parameters. -/
theorem C8_checkpoint_restore_witness :
    create_model (some ⟨"/tmp/translate.ckpt-200"⟩) (fun _ => true) =
        .restore "/tmp/translate.ckpt-200" ∧
      create_model none (fun _ => true) = .freshInit :=
  ⟨((C8_checkpoint_restore (some ⟨"/tmp/translate.ckpt-200"⟩) (fun _ => true)).1
      "/tmp/translate.ckpt-200").mpr ⟨rfl, rfl⟩,
    (C8_checkpoint_restore none (fun _ => true)).2.1 (fun c hc => by cases hc)⟩

/-- C2: at a checkpoint boundary the learning-rate decay operation runs if and
only if the accumulated average loss strictly exceeds every one of — that is,
the maximum of — the last three recorded per-checkpoint losses (of which
there are exactly three, given at least three checkpoints so far); when decay
is not triggered the learning rate is unchanged, when it is the rate is
multiplied by the decay factor, and in either case the loss is appended to the
history. -/
theorem C2_learning_rate_decay (decay_factor : ℚ) (st : TrainStats) (loss : ℚ)
    (h : 3 ≤ st.previous_losses.length) :
    ((checkpointStep decay_factor st loss).2 = true ↔
        ∀ x ∈ lastThree st.previous_losses, x < loss) ∧
      (lastThree st.previous_losses).length = 3 ∧
      ((checkpointStep decay_factor st loss).2 = false →
        (checkpointStep decay_factor st loss).1.learning_rate = st.learning_rate) ∧
      ((checkpointStep decay_factor st loss).2 = true →
        (checkpointStep decay_factor st loss).1.learning_rate =
          st.learning_rate * decay_factor) ∧
      (checkpointStep decay_factor st loss).1.previous_losses =
        st.previous_losses ++ [loss] := by
  have hne : lastThree st.previous_losses ≠ [] := lastThree_ne_nil h
  have hlen2 : 2 < st.previous_losses.length := by omega
  refine ⟨?_, lastThree_length h, ?_, ?_, rfl⟩
  · rw [show (checkpointStep decay_factor st loss).2 =
        decayTriggered st.previous_losses loss from rfl]
    rw [decayTriggered]
    rw [Bool.and_eq_true, decide_eq_true_eq, decide_eq_true_eq]
    rw [pyMaxQ_lt_iff hne]
    constructor
    · rintro ⟨_, hmax⟩; exact hmax
    · intro hmax; exact ⟨hlen2, hmax⟩
  · intro hd
    show (if decayTriggered st.previous_losses loss then
        st.learning_rate * decay_factor else st.learning_rate) = st.learning_rate
    rw [show decayTriggered st.previous_losses loss = false from hd, if_neg (by simp)]
  · intro hd
    show (if decayTriggered st.previous_losses loss then
        st.learning_rate * decay_factor else st.learning_rate) =
      st.learning_rate * decay_factor
    rw [show decayTriggered st.previous_losses loss = true from hd, if_pos rfl]

/-- Instance of `C2_learning_rate_decay`: with recorded losses `[5, 4, 3, 2]`
a new loss `6` exceeds the last three (`4, 3, 2`), so the decay operation runs
and the rate is multiplied by the decay factor; the loss is appended. -/
theorem C2_learning_rate_decay_witness :
    ((checkpointStep (99/100) ⟨1/2, [5, 4, 3, 2]⟩ 6).2 = true ↔
        ∀ x ∈ lastThree [5, 4, 3, 2], x < 6) ∧
      (checkpointStep (99/100) ⟨1/2, [5, 4, 3, 2]⟩ 6).1.previous_losses =
        [5, 4, 3, 2] ++ [6] :=
  ⟨(C2_learning_rate_decay (99/100) ⟨1/2, [5, 4, 3, 2]⟩ 6 (by norm_num)).1,
    (C2_learning_rate_decay (99/100) ⟨1/2, [5, 4, 3, 2]⟩ 6 (by norm_num)).2.2.2.2⟩

/-- Evaluating the sampled-decode comprehension over a nonempty batch raises
`NameError` for the unbound `batch_logit` on the first outer iteration. -/
theorem evalGeneratedComprehension_of_ne_nil {l : List (List ℚ)} (h : l ≠ []) :
    evalGeneratedComprehension l = .error (.nameError "batch_logit") := by
  cases l with
  | nil => exact absurd rfl h
  | cons x xs => rfl

/-- C9: in the flat variant's batch decode routine, the per-step sampling
expression references the unbound name `batch_logit`; every execution reaching
the sampling loop (positive bucket target capacity, nonempty batch of logits)
stops with the unresolved-name error before appending any generated token. -/
theorem C9_unresolved_name_in_sampled_decode (targetCap : ℕ)
    (logitsAt : ℕ → List (List ℚ))
    (hcap : 0 < targetCap) (hbatch : logitsAt 0 ≠ []) :
    sampledDecode targetCap logitsAt = ([], some (.nameError "batch_logit")) := by
  obtain ⟨n, rfl⟩ : ∃ n, targetCap = n + 1 := ⟨targetCap - 1, by omega⟩
  rw [sampledDecode, List.range_succ_eq_map, sampledDecodeLoop,
    evalGeneratedComprehension_of_ne_nil hbatch]

/-- Instance of `C9_unresolved_name_in_sampled_decode` at the script's bucket
target capacity 48 and a one-element batch. -/
theorem C9_unresolved_name_witness :
    sampledDecode 48 (fun _ => [[1]]) = ([], some (.nameError "batch_logit")) :=
  C9_unresolved_name_in_sampled_decode 48 (fun _ => [[1]])
    (by norm_num) (by simp)

/-- C4: every example the flat loader produces has the source truncated to the
configured maximum source length and the target truncated to the configured
maximum target length with the end-of-sequence id appended last (so every
loaded target ends with EOS); for source line `"4 5 6\n"`, target line
`"7 8\n"` and EOS id `2` the produced example is `([4,5,6], [7,8,2])`. -/
theorem C4_flat_line_loading (eos : ℤ) (max_size truncate_in truncate_out : ℕ)
    (lines : List (List ℤ × List ℤ)) :
    (∀ ex ∈ (read_data_flat eos max_size truncate_in truncate_out lines).getD 0 [],
        ex.2.getLast? = some eos) ∧
      (max_size = 0 →
        ∀ k : ℕ, ((read_data_flat eos max_size truncate_in truncate_out lines).getD 0 [])[k]? =
          (lines[k]?).map
            (fun (st : List ℤ × List ℤ) =>
              (st.1.take truncate_in, st.2.take truncate_out ++ [eos]))) ∧
      (parseTokenLine "4 5 6\n".toList = some [4, 5, 6] ∧
        parseTokenLine "7 8\n".toList = some [7, 8] ∧
        read_data_flat 2 0 200 48 [([4, 5, 6], [7, 8])] = [[([4, 5, 6], [7, 8, 2])]]) := by
  refine ⟨?_, ?_, by decide, by decide, by decide⟩
  · intro ex hex
    rw [read_data_flat] at hex
    simp only [List.getD_cons_zero] at hex
    obtain ⟨st, _, rfl⟩ := List.mem_map.1 hex
    simp [readPairFlat]
  · intro hms k
    subst hms
    rw [read_data_flat]
    simp [readPairFlat]

/-- Instance of `C4_flat_line_loading`: the loaded example of the spec's
scenario line pair ends in the EOS id. -/
theorem C4_flat_line_loading_witness :
    (([4, 5, 6], [7, 8, 2]) : List ℤ × List ℤ).2.getLast? = some 2 :=
  (C4_flat_line_loading 2 0 200 48 [([4, 5, 6], [7, 8])]).1
    ([4, 5, 6], [7, 8, 2]) (by decide)

/-- C10: in the hierarchical loader an article goes to the largest-index
bucket whose source capacity its sentence count strictly exceeds and whose
target capacity strictly exceeds the target length (EOS included), stored with
the source trimmed to exactly that capacity; an article overflowing no bucket
— in particular any single-sentence article, the smallest source capacity
being 1 — or whose target (EOS included) has 48 or more tokens, is placed in
no bucket and the data set is left unchanged. -/
theorem C10_hier_bucket_policy (src : List (List ℤ)) (tgt : List ℤ) :
    (∀ i, chooseBucketHier bucketsHier src.length tgt.length = some i →
        (bucketsHier.getD i (0, 0)).1 < src.length ∧
        tgt.length < (bucketsHier.getD i (0, 0)).2 ∧
        (∀ j, i < j → j < bucketsHier.length →
          ¬((bucketsHier.getD j (0, 0)).1 < src.length ∧
            tgt.length < (bucketsHier.getD j (0, 0)).2)) ∧
        (src.take (bucketsHier.getD i (0, 0)).1).length = (bucketsHier.getD i (0, 0)).1 ∧
        ∀ ds, placeArticleHier bucketsHier ds src tgt =
          ds.set i (ds.getD i [] ++ [(src.take (bucketsHier.getD i (0, 0)).1, tgt)])) ∧
      (src.length = 1 → chooseBucketHier bucketsHier src.length tgt.length = none) ∧
      (48 ≤ tgt.length → chooseBucketHier bucketsHier src.length tgt.length = none) ∧
      (chooseBucketHier bucketsHier src.length tgt.length = none →
        ∀ ds, placeArticleHier bucketsHier ds src tgt = ds) ∧
      (∀ (m : ℕ) (sents : List (List ℤ)), (sents.map (encodeSent m)).length = sents.length) := by
  refine ⟨?_, ?_, ?_, ?_, fun m sents => List.length_map sents (encodeSent m)⟩
  · intro i hi
    obtain ⟨hilt, hip, hmax⟩ := findLargestIdx_eq_some hi
    rw [Bool.and_eq_true, decide_eq_true_eq, decide_eq_true_eq] at hip
    refine ⟨hip.1, hip.2, ?_, ?_, ?_⟩
    · intro j hij hjlen
      have := hmax j hij hjlen
      simp only [Bool.and_eq_false_iff, decide_eq_false_iff_not, not_lt] at this
      rcases this with h1 | h2
      · exact fun hc => absurd hc.1 (not_lt.2 h1)
      · exact fun hc => absurd hc.2 (not_lt.2 h2)
    · rw [List.length_take]
      omega
    · intro ds
      rw [placeArticleHier, hi]
  · intro h1
    apply findLargestIdx_eq_none.2
    intro j hj
    have hj6 : j < 6 := by simpa [bucketsHier] using hj
    rw [h1]
    interval_cases j <;> simp [bucketsHier]
  · intro h48
    apply findLargestIdx_eq_none.2
    intro j hj
    have hj6 : j < 6 := by simpa [bucketsHier] using hj
    interval_cases j <;> simp [bucketsHier] <;> omega
  · intro hnone ds
    rw [placeArticleHier, hnone]

/-- Instance of `C10_hier_bucket_policy`: a single-sentence article selects no
bucket (it is dropped). -/
theorem C10_hier_bucket_policy_witness :
    chooseBucketHier bucketsHier ([[(4 : ℤ)]] : List (List ℤ)).length
        ([7, 8, 2] : List ℤ).length = none :=
  (C10_hier_bucket_policy [[4]] [7, 8, 2]).2.1 rfl

/-- C1 counterexample: the flat loader at a 200-token source line places the
example in the single bucket `(200, 48)` although the claimed strict predicate
`len(source) < 200` fails there (the loader appends every example to bucket 0
unconditionally, the fitting loop being commented out). -/
theorem C1_counterexample_strict_fit :
    ∃ ex ∈ (read_data_flat 2 0 200 48 [(List.replicate 200 (4 : ℤ), [7, 8])]).getD 0 [],
      ¬(ex.1.length < (bucketsFlat.getD 0 (0, 0)).1) := by
  refine ⟨(List.replicate 200 (4 : ℤ), [7, 8, 2]), ?_, ?_⟩
  · rw [read_data_flat]
    rw [if_pos rfl, List.map_cons, List.map_nil, List.getD_cons_zero]
    refine List.mem_singleton.2 ?_
    rw [readPairFlat, List.take_replicate, min_self]
    rfl
  · rw [List.length_replicate]
    rw [show (bucketsFlat.getD 0 (0, 0)).1 = 200 from rfl]
    omega

/-- C1 (amended): after bucketing, the flat variant holds every example in its
single bucket with `len(source) ≤ 200` (the bucket's source capacity) and
`len(target) ≤ 48 + 1` (target capacity plus the appended EOS), the capacity
predicate holding only non-strictly; the hierarchical variant stores each
placed example with source length exactly its bucket's source capacity and
target length strictly below the target capacity; and in both variants no
example is placed in more than one bucket (the flat data set has exactly one
bucket, and a hierarchical placement changes no bucket other than the chosen
one). -/
theorem C1_amended_bucket_invariant (eos : ℤ) (max_size : ℕ)
    (lines : List (List ℤ × List ℤ)) :
    ((read_data_flat eos max_size 200 48 lines).length = 1 ∧
      ∀ ex ∈ (read_data_flat eos max_size 200 48 lines).getD 0 [],
        ex.1.length ≤ (bucketsFlat.getD 0 (0, 0)).1 ∧
        ex.2.length ≤ (bucketsFlat.getD 0 (0, 0)).2 + 1) ∧
      (∀ (src : List (List ℤ)) (tgt : List ℤ) i,
        chooseBucketHier bucketsHier src.length tgt.length = some i →
          (src.take (bucketsHier.getD i (0, 0)).1).length = (bucketsHier.getD i (0, 0)).1 ∧
          tgt.length < (bucketsHier.getD i (0, 0)).2 ∧
          ∀ (ds : List (List (List (List ℤ) × List ℤ))) (j : ℕ), j ≠ i →
            (placeArticleHier bucketsHier ds src tgt)[j]? = ds[j]?) ∧
      (∀ (src : List (List ℤ)) (tgt : List ℤ) ds,
        chooseBucketHier bucketsHier src.length tgt.length = none →
          placeArticleHier bucketsHier ds src tgt = ds) := by
  refine ⟨⟨rfl, ?_⟩, ?_, ?_⟩
  · intro ex hex
    rw [read_data_flat] at hex
    simp only [List.getD_cons_zero] at hex
    obtain ⟨st, _, rfl⟩ := List.mem_map.1 hex
    constructor
    · simp only [readPairFlat, bucketsFlat, List.length_take, List.getD_cons_zero]
      omega
    · simp only [readPairFlat, bucketsFlat, List.length_append, List.length_take,
        List.getD_cons_zero, List.length_cons, List.length_nil]
      omega
  · intro src tgt i hi
    obtain ⟨hilt, hip, _⟩ := findLargestIdx_eq_some hi
    rw [Bool.and_eq_true, decide_eq_true_eq, decide_eq_true_eq] at hip
    refine ⟨by rw [List.length_take]; omega, hip.2, ?_⟩
    intro ds j hj
    rw [placeArticleHier, hi]
    exact List.getElem?_set_ne hj.symm
  · intro src tgt ds hnone
    rw [placeArticleHier, hnone]

/-- Instance of `C1_amended_bucket_invariant`: the spec scenario example sits
in the single flat bucket within the non-strict bounds. -/
theorem C1_amended_bucket_invariant_witness :
    ([4, 5, 6] : List ℤ).length ≤ (bucketsFlat.getD 0 (0, 0)).1 ∧
      ([7, 8, 2] : List ℤ).length ≤ (bucketsFlat.getD 0 (0, 0)).2 + 1 :=
  (C1_amended_bucket_invariant 2 0 [([4, 5, 6], [7, 8])]).1.2
    ([4, 5, 6], [7, 8, 2]) (by decide)

end Translate
